import Mathlib

/-!
# Verification of the CyberAware Activity Provider analytics core

Shallow embedding of `src/app.py` (the analytics store, the strategy dispatch
and the facade).  Python dicts are modelled as insertion-ordered association
lists (`alGet` / `alSet` mirror `d.get(k)` / `d[k] = v`: an update keeps the
key's position, a fresh key is appended at the end, which is exactly CPython's
dict semantics).  A Python method that can raise is embedded as a function into
`Option`: `none` models an uncaught exception, and in every such case the
raise happens before any mutation of the store, so the store state is
unchanged.  `int(...)` applied to a string is modelled by `pyInt` (surrounding
whitespace, an optional sign, then decimal digits); `.strip()` and `.lower()`
by `pyStrip` / `pyLower` (ASCII case folding, which covers every mode string
the dispatch compares against).
-/

/-- Value of one analytics metric entry: the code stores `True` for the
accessed flag and an `int` for the progress percentage. -/
inductive MValue
  | bool (b : Bool)
  | int (n : Int)
deriving DecidableEq

/-- One entry of `quantAnalytics` / `qualAnalytics`:
a Python dict `{"name": ..., "value": ...}`. -/
structure Metric where
  name : String
  value : MValue
deriving DecidableEq

/-- One student record, `{"inveniraStdID": ..., "quantAnalytics": [...],
"qualAnalytics": [...]}` (app.py line 46). -/
structure StudentAnalytics where
  inveniraStdID : String
  quantAnalytics : List Metric
  qualAnalytics : List Metric
deriving DecidableEq

/-- The repository's `_data` field:
`{ activityID: { inveniraStdID: record } }`, as insertion-ordered maps. -/
abbrev RepoState := List (String × List (String × StudentAnalytics))

/-- Request argument map (`request.args`): string keys to string values. -/
abbrev Args := List (String × String)

/-- The `event_data` dict handed to `register_student_event` by the
strategies: an `"accessed"` flag plus an optional `"progresso"` key
(`some p` models the key being present with integer value `p`). -/
structure EventData where
  accessed : Bool
  progresso : Option Int
deriving DecidableEq

/-- `d.get(k)` on an insertion-ordered dict. -/
def alGet {α : Type} : List (String × α) → String → Option α
  | [], _ => none
  | (k, v) :: rest, key => if k = key then some v else alGet rest key

/-- `d[k] = v` on an insertion-ordered dict: update in place when the key
exists, append at the end otherwise. -/
def alSet {α : Type} : List (String × α) → String → α → List (String × α)
  | [], key, v => [(key, v)]
  | (k, w) :: rest, key, v =>
      if k = key then (key, v) :: rest else (k, w) :: alSet rest key v

/-- Metric name written at app.py line 52. -/
def accessedName : String := "Acedeu à atividade"

/-- Metric name written at app.py line 58. -/
def progressName : String := "Progresso (%)"

/-- The upsert pattern of app.py lines 51-53 and 57-59: drop every entry with
the given name, then append the new entry at the end. -/
def upsertMetric (l : List Metric) (n : String) (v : MValue) : List Metric :=
  (l.filter fun qa => decide (qa.name ≠ n)) ++ [⟨n, v⟩]

/-- `AnalyticsRepository.register_activity` (app.py lines 34-37):
`if activity_id and activity_id not in self._data: self._data[activity_id] = {}`. -/
def register_activity (st : RepoState) (activity_id : String) : RepoState :=
  if activity_id = "" then st
  else
    match alGet st activity_id with
    | some _ => st
    | none => st ++ [(activity_id, [])]

/-- Fresh record created at app.py line 46 when the student is unknown. -/
def freshStudent (sid : String) : StudentAnalytics :=
  ⟨sid, [], []⟩

/-- Body of app.py lines 44-59: fetch or create the record, upsert the
accessed flag unconditionally, then upsert the progress entry when the
`"progresso"` key is present. -/
def updatedStudent (students : List (String × StudentAnalytics)) (sid : String)
    (ev : EventData) : StudentAnalytics :=
  let sa := (alGet students sid).getD (freshStudent sid)
  let sa1 := { sa with
    quantAnalytics := upsertMetric sa.quantAnalytics accessedName (.bool true) }
  match ev.progresso with
  | some p =>
      { sa1 with
        quantAnalytics := upsertMetric sa1.quantAnalytics progressName (.int p) }
  | none => sa1

/-- `AnalyticsRepository.register_student_event` (app.py lines 39-62).
After the internal `register_activity`, line 44 evaluates
`self._data[activity_id]`, which raises `KeyError` when the activity is still
absent (the empty-identifier case); `none` models that raise, which happens
before any mutation.  Line 62 writes the record back into the activity's
map. -/
def register_student_event (st : RepoState) (activity_id invenira_std_id : String)
    (event_data : EventData) : Option RepoState :=
  let st1 := register_activity st activity_id
  match alGet st1 activity_id with
  | none => none
  | some students =>
      some (alSet st1 activity_id
        (alSet students invenira_std_id (updatedStudent students invenira_std_id event_data)))

/-- `AnalyticsRepository.get_activity_analytics` (app.py lines 64-68). -/
def get_activity_analytics (st : RepoState) (activity_id : String) :
    List StudentAnalytics :=
  match alGet st activity_id with
  | none => []
  | some students => students.map (·.2)

/-- Python whitespace characters stripped by `str.strip()`
(space, tab, newline, carriage return, vertical tab, form feed). -/
def isPySpace (c : Char) : Bool :=
  c = ' ' || c = '\t' || c = '\n' || c = '\r' || c = Char.ofNat 11 || c = Char.ofNat 12

/-- `s.strip()`. -/
def pyStrip (s : String) : String :=
  ⟨((s.data.dropWhile isPySpace).reverse.dropWhile isPySpace).reverse⟩

/-- `s.lower()` (ASCII case folding). -/
def pyLower (s : String) : String :=
  ⟨s.data.map Char.toLower⟩

/-- `(mode or "").strip().lower()` (app.py lines 218 and 233). -/
def pyNorm (mode : String) : String :=
  pyLower (pyStrip mode)

/-- Decimal digit value of a character, `none` for a non-digit. -/
def digitVal (c : Char) : Option Nat :=
  if '0' ≤ c ∧ c ≤ '9' then some (c.toNat - '0'.toNat) else none

/-- Accumulate the value of a digit string; `none` on any non-digit. -/
def digitsToNatAux : List Char → Nat → Option Nat
  | [], acc => some acc
  | c :: cs, acc =>
      match digitVal c with
      | some d => digitsToNatAux cs (acc * 10 + d)
      | none => none

/-- Value of a non-empty all-digit character list, `none` otherwise. -/
def digitsToNat : List Char → Option Nat
  | [] => none
  | cs => digitsToNatAux cs 0

/-- Python `int(s)` on a string: surrounding whitespace, an optional sign,
then decimal digits; `none` models the `ValueError` for anything else. -/
def pyInt (s : String) : Option Int :=
  match (pyStrip s).data with
  | '+' :: cs => (digitsToNat cs).map fun n => (n : Int)
  | '-' :: cs => (digitsToNat cs).map fun n => -(n : Int)
  | cs => (digitsToNat cs).map fun n => (n : Int)

/-- The normalisation of app.py lines 107-110: clip below 0, then above 100. -/
def pyClamp (p : Int) : Int :=
  let p1 := if p < 0 then 0 else p
  if p1 > 100 then 100 else p1

/-- The two strategies registered in the facade's `_strategies` table. -/
inductive StrategyName
  | simple
  | progress
deriving DecidableEq

/-- `SimpleAccessStrategy.update` (app.py lines 85-86). -/
def simple_update (st : RepoState) (activity_id user_id : String) (_args : Args) :
    Option RepoState :=
  register_student_event st activity_id user_id ⟨true, none⟩

/-- `ProgressAccessStrategy.update` (app.py lines 91-112): missing, empty or
unparseable progress degrades to the simple event; otherwise the parsed value
is clamped to 0..100 and recorded. -/
def progress_update (st : RepoState) (activity_id user_id : String) (args : Args) :
    Option RepoState :=
  match alGet args "progresso" with
  | none => register_student_event st activity_id user_id ⟨true, none⟩
  | some raw =>
      if raw = "" then register_student_event st activity_id user_id ⟨true, none⟩
      else
        match pyInt raw with
        | none => register_student_event st activity_id user_id ⟨true, none⟩
        | some p => register_student_event st activity_id user_id ⟨true, some (pyClamp p)⟩

/-- `args.get("progresso") not in (None, "")` (app.py lines 222 and 235). -/
def progressPresent (args : Args) : Bool :=
  match alGet args "progresso" with
  | none => false
  | some s => decide (s ≠ "")

/-- `CyberAwareFacade._select_strategy` (app.py lines 213-225): an explicitly
declared known mode wins; otherwise infer `progress` from a non-empty
`"progresso"` argument; default `simple`. -/
def select_strategy (mode : String) (args : Args) : StrategyName :=
  let mode_norm := pyNorm mode
  if mode_norm = "simple" then .simple
  else if mode_norm = "progress" then .progress
  else if progressPresent args then .progress
  else .simple

/-- Dispatch a strategy name to its `update` method. -/
def applyStrategy : StrategyName → RepoState → String → String → Args → Option RepoState
  | .simple => simple_update
  | .progress => progress_update

/-- The key under which a strategy sits in the facade's `_strategies` dict. -/
def strategyKey : StrategyName → String
  | .simple => "simple"
  | .progress => "progress"

/-- The duplicated mode computation of app.py lines 233-235, used only for the
confirmation message. -/
def messageModeNorm (mode : String) (args : Args) : String :=
  let mode_norm := pyNorm mode
  if mode_norm = "simple" ∨ mode_norm = "progress" then mode_norm
  else if progressPresent args then "progress" else "simple"

/-- `CyberAwareFacade.record_student_access` (app.py lines 227-237): apply the
selected strategy, then return the confirmation message naming the behaviour
actually used. -/
def record_student_access (st : RepoState) (activity_id user_id mode : String)
    (args : Args) : Option (String × RepoState) :=
  (applyStrategy (select_strategy mode args) st activity_id user_id args).map
    fun st' =>
      ("Aluno " ++ user_id ++ " iniciou a atividade " ++ activity_id ++
        " (mode=" ++ messageModeNorm mode args ++ ").", st')

/-- The facade's fixed base URL (app.py line 253). -/
def base_url : String := "https://cyberaware-ap.onrender.com"

/-- `CyberAwareFacade.prepare_deploy` (app.py lines 208-211). -/
def prepare_deploy (st : RepoState) (activity_id : String) : String × RepoState :=
  (base_url ++ "/play?activityID=" ++ activity_id, register_activity st activity_id)

/-- One core operation, as exposed by the repository and the facade;
`recEvent` is a direct call to the store's event recording. -/
inductive CoreOp
  | regActivity (aid : String)
  | recEvent (aid sid : String) (ev : EventData)
  | recAccess (aid sid mode : String) (args : Args)
  | prepDeploy (aid : String)
  | getAnalytics (aid : String)

/-- State transition of one core operation; an operation that raises
(`none`) leaves the store unchanged, since the raise precedes any mutation. -/
def applyOp (st : RepoState) : CoreOp → RepoState
  | .regActivity aid => register_activity st aid
  | .recEvent aid sid ev => (register_student_event st aid sid ev).getD st
  | .recAccess aid sid mode args =>
      ((record_student_access st aid sid mode args).map (·.2)).getD st
  | .prepDeploy aid => (prepare_deploy st aid).2
  | .getAnalytics _ => st

/-- Run a sequence of core operations from a given store state. -/
def runOpsFrom (st : RepoState) (ops : List CoreOp) : RepoState :=
  ops.foldl applyOp st

/-- Run a sequence of core operations from the initial empty store. -/
def runOps (ops : List CoreOp) : RepoState :=
  runOpsFrom [] ops

/-- One facade-level operation (no direct store event recording): exactly
what the HTTP boundary of app.py can invoke. -/
inductive FacadeOp
  | regActivity (aid : String)
  | recAccess (aid sid mode : String) (args : Args)
  | prepDeploy (aid : String)
  | getAnalytics (aid : String)

/-- State transition of one facade-level operation. -/
def applyFacadeOp (st : RepoState) : FacadeOp → RepoState
  | .regActivity aid => register_activity st aid
  | .recAccess aid sid mode args =>
      ((record_student_access st aid sid mode args).map (·.2)).getD st
  | .prepDeploy aid => (prepare_deploy st aid).2
  | .getAnalytics _ => st

/-- Run a sequence of facade-level operations from the initial empty store. -/
def runFacadeOps (ops : List FacadeOp) : RepoState :=
  ops.foldl applyFacadeOp []

/-- The stored `quantAnalytics` list of one (activity, student) pair, when the
record exists. -/
def quantOf (st : RepoState) (aid sid : String) : Option (List Metric) :=
  (alGet st aid).bind fun students => (alGet students sid).map (·.quantAnalytics)

/-- First stored value under a metric name (the list is name-unique in every
reachable state, so this is the stored value). -/
def metricValue (l : List Metric) (n : String) : Option MValue :=
  (l.find? fun qa => decide (qa.name = n)).map (·.value)

/-- Observed accessed-flag entry of one (activity, student) pair. -/
def accessedOf (st : RepoState) (aid sid : String) : Option MValue :=
  (quantOf st aid sid).bind fun l => metricValue l accessedName

/-- Observed progress entry of one (activity, student) pair. -/
def progressOf (st : RepoState) (aid sid : String) : Option MValue :=
  (quantOf st aid sid).bind fun l => metricValue l progressName

/-- Student keys of one activity, in insertion order. -/
def studentIds (st : RepoState) (aid : String) : List String :=
  ((alGet st aid).getD []).map Prod.fst

/-- The progress value an event's argument map effectively supplies: the
`"progresso"` argument when present, non-empty and parseable, else `none`.
This is the exact condition splitting `ProgressAccessStrategy.update`'s
fallback branches from its progress-writing branch. -/
def validProgress (args : Args) : Option Int :=
  (alGet args "progresso").bind fun raw => if raw = "" then none else pyInt raw

/-- Invariant: within every stored record, metric names are unique. -/
def QuantNodup (st : RepoState) : Prop :=
  ∀ p ∈ st, ∀ q ∈ p.2, ((q.2.quantAnalytics).map Metric.name).Nodup

/-- Invariant: every stored progress entry is an integer in [0, 100]. -/
def ProgRange (st : RepoState) : Prop :=
  ∀ p ∈ st, ∀ q ∈ p.2, ∀ m ∈ q.2.quantAnalytics, m.name = progressName →
    ∃ n : Int, m.value = MValue.int n ∧ 0 ≤ n ∧ n ≤ 100

/-- Invariant: every stored record's `inveniraStdID` field equals the student
key it is stored under. -/
def KeysMatch (st : RepoState) : Prop :=
  ∀ p ∈ st, ∀ q ∈ p.2, q.2.inveniraStdID = q.1

/-! ### Association-list lemmas -/

theorem alGet_append_some {α : Type} {l : List (String × α)} {k : String} {v : α}
    (m : List (String × α)) (h : alGet l k = some v) : alGet (l ++ m) k = some v := by
  induction l with
  | nil => simp [alGet] at h
  | cons p rest ih =>
    obtain ⟨pk, pv⟩ := p
    by_cases hk : pk = k
    · simp [alGet, hk] at h ⊢
      exact h
    · simp [alGet, hk] at h ⊢
      exact ih h

theorem alGet_append_none {α : Type} {l : List (String × α)} {k : String}
    (m : List (String × α)) (h : alGet l k = none) : alGet (l ++ m) k = alGet m k := by
  induction l with
  | nil => simp [alGet]
  | cons p rest ih =>
    obtain ⟨pk, pv⟩ := p
    by_cases hk : pk = k
    · simp [alGet, hk] at h
    · simp [alGet, hk] at h ⊢
      exact ih h

theorem alGet_alSet_self {α : Type} (l : List (String × α)) (k : String) (v : α) :
    alGet (alSet l k v) k = some v := by
  induction l with
  | nil => simp [alGet, alSet]
  | cons p rest ih =>
    obtain ⟨pk, pv⟩ := p
    by_cases hk : pk = k
    · simp [alSet, alGet, hk]
    · simp [alSet, alGet, hk]
      exact ih

theorem alGet_alSet_ne {α : Type} (l : List (String × α)) {k k' : String} (v : α)
    (h : k' ≠ k) : alGet (alSet l k v) k' = alGet l k' := by
  have hkk : ¬ k = k' := fun hh => h hh.symm
  induction l with
  | nil => simp [alGet, alSet, hkk]
  | cons p rest ih =>
    obtain ⟨pk, pv⟩ := p
    by_cases hk : pk = k
    · subst hk
      simp [alSet, alGet, hkk]
    · simp [alSet, alGet, hk, ih]

theorem mem_alSet {α : Type} {l : List (String × α)} {k : String} {v : α}
    {p : String × α} (h : p ∈ alSet l k v) : p = (k, v) ∨ p ∈ l := by
  induction l with
  | nil => simp [alSet] at h; simp [h]
  | cons q rest ih =>
    obtain ⟨qk, qv⟩ := q
    by_cases hk : qk = k
    · simp [alSet, hk] at h
      rcases h with h | h
      · exact Or.inl h
      · exact Or.inr (List.mem_cons_of_mem _ h)
    · simp [alSet, hk] at h
      rcases h with h | h
      · exact Or.inr (by simp [h])
      · rcases ih h with h' | h'
        · exact Or.inl h'
        · exact Or.inr (List.mem_cons_of_mem _ h')

theorem alGet_mem {α : Type} {l : List (String × α)} {k : String} {v : α}
    (h : alGet l k = some v) : (k, v) ∈ l := by
  induction l with
  | nil => simp [alGet] at h
  | cons p rest ih =>
    obtain ⟨pk, pv⟩ := p
    by_cases hk : pk = k
    · simp [alGet, hk] at h
      simp [hk, h]
    · simp [alGet, hk] at h
      exact List.mem_cons_of_mem _ (ih h)

theorem alSet_keys {α : Type} (l : List (String × α)) (k : String) (v : α) :
    (alSet l k v).map Prod.fst =
      if k ∈ l.map Prod.fst then l.map Prod.fst else l.map Prod.fst ++ [k] := by
  induction l with
  | nil => simp [alSet]
  | cons p rest ih =>
    obtain ⟨pk, pv⟩ := p
    by_cases hk : pk = k
    · simp [alSet, hk]
    · have hne : ¬ k = pk := fun hh => hk hh.symm
      by_cases hmem : k ∈ rest.map Prod.fst
      · simp [alSet, hk, hmem, hne, ih]
      · simp [alSet, hk, hmem, hne, ih]

/-! ### `register_activity` lemmas -/

theorem register_activity_empty (st : RepoState) : register_activity st "" = st := by
  simp [register_activity]

theorem alGet_register_activity_self {aid : String} (st : RepoState) (h : aid ≠ "") :
    alGet (register_activity st aid) aid = some ((alGet st aid).getD []) := by
  unfold register_activity
  simp only [h, if_false]
  cases hg : alGet st aid with
  | some s => simp [hg]
  | none => simp [hg, alGet_append_none _ hg, alGet]

theorem quantOf_register_activity (st : RepoState) (aid x y : String) :
    quantOf (register_activity st aid) x y = quantOf st x y := by
  unfold register_activity
  by_cases h0 : aid = ""
  · simp [h0]
  · simp only [h0, if_false]
    cases hg : alGet st aid with
    | some s => simp
    | none =>
      unfold quantOf
      cases hx : alGet st x with
      | some s => rw [alGet_append_some _ hx]
      | none =>
        rw [alGet_append_none _ hx]
        by_cases hax : aid = x
        · subst hax
          simp [alGet, hx]
        · simp [alGet, hax]

theorem studentIds_register_activity (st : RepoState) (aid x : String) :
    studentIds (register_activity st aid) x = studentIds st x := by
  unfold register_activity
  by_cases h0 : aid = ""
  · simp [h0]
  · simp only [h0, if_false]
    cases hg : alGet st aid with
    | some s => simp
    | none =>
      unfold studentIds
      cases hx : alGet st x with
      | some s => rw [alGet_append_some _ hx]
      | none =>
        rw [alGet_append_none _ hx]
        by_cases hax : aid = x
        · subst hax
          simp [alGet, hx]
        · simp [alGet, hax]

theorem register_activity_idem (st : RepoState) (aid : String) :
    register_activity (register_activity st aid) aid = register_activity st aid := by
  by_cases h0 : aid = ""
  · simp [h0, register_activity_empty]
  · unfold register_activity
    simp only [h0, if_false]
    cases hg : alGet st aid with
    | some s => simp [hg]
    | none => simp [hg, alGet_append_none _ hg, alGet]

/-! ### Metric upsert lemmas -/

theorem accessedName_ne_progressName : accessedName ≠ progressName := by decide

theorem find?_upsert_self (l : List Metric) (n : String) (v : MValue) :
    ((upsertMetric l n v).find? fun qa => decide (qa.name = n)) = some ⟨n, v⟩ := by
  unfold upsertMetric
  induction l with
  | nil => simp
  | cons a l ih =>
    by_cases h : a.name = n <;> simp [List.filter_cons, h, ih]

theorem find?_upsert_ne (l : List Metric) (n : String) (v : MValue) {m : String}
    (h : m ≠ n) :
    ((upsertMetric l n v).find? fun qa => decide (qa.name = m)) =
      (l.find? fun qa => decide (qa.name = m)) := by
  unfold upsertMetric
  induction l with
  | nil =>
    simp only [List.filter_nil, List.nil_append]
    rw [List.find?_cons_of_neg _ (by simp [Ne.symm h])]
  | cons a l ih =>
    rw [List.filter_cons]
    by_cases ha : a.name = n
    · rw [if_neg (by simp [ha]), ih,
        List.find?_cons_of_neg _ (by simp [ha, Ne.symm h])]
    · by_cases ham : a.name = m
      · rw [if_pos (by simp [ha]), List.cons_append,
          List.find?_cons_of_pos _ (by simp [ham]),
          List.find?_cons_of_pos _ (by simp [ham])]
      · rw [if_pos (by simp [ha]), List.cons_append,
          List.find?_cons_of_neg _ (by simp [ham]), ih,
          List.find?_cons_of_neg _ (by simp [ham])]

theorem metricValue_upsert_self (l : List Metric) (n : String) (v : MValue) :
    metricValue (upsertMetric l n v) n = some v := by
  unfold metricValue
  rw [find?_upsert_self]
  rfl

theorem metricValue_upsert_ne (l : List Metric) (n : String) (v : MValue) {m : String}
    (h : m ≠ n) : metricValue (upsertMetric l n v) m = metricValue l m := by
  unfold metricValue
  rw [find?_upsert_ne l n v h]

theorem mem_upsert {l : List Metric} {n : String} {v : MValue} {x : Metric}
    (h : x ∈ upsertMetric l n v) : x = ⟨n, v⟩ ∨ x ∈ l := by
  unfold upsertMetric at h
  rcases List.mem_append.1 h with h1 | h1
  · exact Or.inr (List.mem_of_mem_filter h1)
  · simp at h1
    exact Or.inl h1

theorem nodup_upsert {l : List Metric} (n : String) (v : MValue)
    (h : (l.map Metric.name).Nodup) :
    ((upsertMetric l n v).map Metric.name).Nodup := by
  unfold upsertMetric
  rw [List.map_append, List.nodup_append]
  refine ⟨h.sublist ((List.filter_sublist l).map Metric.name), List.nodup_singleton n, ?_⟩
  intro a ha hb
  simp only [List.map_cons, List.map_nil, List.mem_singleton] at hb
  subst hb
  simp only [List.mem_map, List.mem_filter] at ha
  obtain ⟨x, ⟨_, hxn⟩, hxe⟩ := ha
  rw [hxe] at hxn
  simp at hxn

/-! ### `updatedStudent` lemmas -/

theorem quant_updatedStudent_accessed (students : List (String × StudentAnalytics))
    (sid : String) (ev : EventData) :
    metricValue (updatedStudent students sid ev).quantAnalytics accessedName =
      some (.bool true) := by
  cases hp : ev.progresso with
  | none =>
    simp only [updatedStudent, hp]
    exact metricValue_upsert_self _ _ _
  | some p =>
    simp only [updatedStudent, hp]
    rw [metricValue_upsert_ne _ _ _ accessedName_ne_progressName]
    exact metricValue_upsert_self _ _ _

theorem quant_updatedStudent_progress_none (students : List (String × StudentAnalytics))
    (sid : String) {ev : EventData} (h : ev.progresso = none) :
    metricValue (updatedStudent students sid ev).quantAnalytics progressName =
      metricValue ((alGet students sid).getD (freshStudent sid)).quantAnalytics
        progressName := by
  simp only [updatedStudent, h]
  exact metricValue_upsert_ne _ _ _ (Ne.symm accessedName_ne_progressName)

theorem quant_updatedStudent_progress_some (students : List (String × StudentAnalytics))
    (sid : String) {ev : EventData} {p : Int} (h : ev.progresso = some p) :
    metricValue (updatedStudent students sid ev).quantAnalytics progressName =
      some (.int p) := by
  simp only [updatedStudent, h]
  exact metricValue_upsert_self _ _ _

/-! ### `register_student_event` lemmas -/

theorem rse_eq_some {st : RepoState} {aid sid : String} {ev : EventData}
    {st' : RepoState} (h : register_student_event st aid sid ev = some st') :
    ∃ students, alGet (register_activity st aid) aid = some students ∧
      st' = alSet (register_activity st aid) aid
        (alSet students sid (updatedStudent students sid ev)) := by
  simp only [register_student_event] at h
  cases hg : alGet (register_activity st aid) aid with
  | none => rw [hg] at h; cases h
  | some students =>
    rw [hg] at h
    simp only [Option.some.injEq] at h
    exact ⟨students, rfl, h.symm⟩

theorem rse_isSome (st : RepoState) {aid : String} (sid : String) (ev : EventData)
    (h : aid ≠ "") : (register_student_event st aid sid ev).isSome = true := by
  simp only [register_student_event]
  rw [alGet_register_activity_self st h]
  simp

theorem quantOf_rse_self {st : RepoState} {aid sid : String} {ev : EventData}
    {st' : RepoState} (h : register_student_event st aid sid ev = some st') :
    ∃ students, alGet (register_activity st aid) aid = some students ∧
      quantOf st' aid sid = some (updatedStudent students sid ev).quantAnalytics := by
  obtain ⟨students, hg, hst⟩ := rse_eq_some h
  refine ⟨students, hg, ?_⟩
  subst hst
  unfold quantOf
  rw [alGet_alSet_self]
  simp [alGet_alSet_self]

theorem quantOf_rse_frame {st : RepoState} {aid sid : String} {ev : EventData}
    {st' : RepoState} (x y : String)
    (h : register_student_event st aid sid ev = some st')
    (hxy : ¬ (x = aid ∧ y = sid)) :
    quantOf st' x y = quantOf st x y := by
  obtain ⟨students, hg, hst⟩ := rse_eq_some h
  subst hst
  rw [← quantOf_register_activity st aid x y]
  by_cases hx : x = aid
  · subst hx
    have hy : y ≠ sid := fun hh => hxy ⟨rfl, hh⟩
    unfold quantOf
    rw [alGet_alSet_self, hg]
    simp only [Option.some_bind]
    rw [alGet_alSet_ne _ _ hy]
  · unfold quantOf
    rw [alGet_alSet_ne _ _ hx]

theorem accessedOf_rse_self {st : RepoState} {aid sid : String} {ev : EventData}
    {st' : RepoState} (h : register_student_event st aid sid ev = some st') :
    accessedOf st' aid sid = some (.bool true) := by
  obtain ⟨students, _, hq⟩ := quantOf_rse_self h
  unfold accessedOf
  rw [hq]
  simp only [Option.some_bind]
  exact quant_updatedStudent_accessed students sid ev

theorem progressOf_rse_none {st : RepoState} {aid sid : String} {b : Bool}
    {st' : RepoState} (h : register_student_event st aid sid ⟨b, none⟩ = some st') :
    progressOf st' aid sid = progressOf st aid sid := by
  obtain ⟨students, hg, hq⟩ := quantOf_rse_self h
  unfold progressOf
  rw [hq]
  simp only [Option.some_bind]
  rw [quant_updatedStudent_progress_none students sid rfl]
  rw [← quantOf_register_activity st aid aid sid]
  unfold quantOf
  rw [hg]
  simp only [Option.some_bind]
  cases hs : alGet students sid with
  | none => simp [hs, freshStudent, metricValue]
  | some sa => simp [hs]

theorem progressOf_rse_some {st : RepoState} {aid sid : String} {b : Bool} {p : Int}
    {st' : RepoState} (h : register_student_event st aid sid ⟨b, some p⟩ = some st') :
    progressOf st' aid sid = some (.int p) := by
  obtain ⟨students, _, hq⟩ := quantOf_rse_self h
  unfold progressOf
  rw [hq]
  simp only [Option.some_bind]
  exact quant_updatedStudent_progress_some students sid rfl

theorem studentIds_rse {st : RepoState} {aid sid : String} {ev : EventData}
    {st' : RepoState} (h : register_student_event st aid sid ev = some st') :
    studentIds st' aid =
      if sid ∈ studentIds st aid then studentIds st aid
      else studentIds st aid ++ [sid] := by
  obtain ⟨students, hg, hst⟩ := rse_eq_some h
  subst hst
  have h1 : studentIds (register_activity st aid) aid = studentIds st aid :=
    studentIds_register_activity st aid aid
  unfold studentIds at h1 ⊢
  rw [alGet_alSet_self]
  rw [hg] at h1
  simp only [Option.getD_some] at h1 ⊢
  rw [alSet_keys, h1]

/-! ### Strategy lemmas -/

theorem pyClamp_nonneg (p : Int) : 0 ≤ pyClamp p := by
  simp only [pyClamp]
  split_ifs <;> omega

theorem pyClamp_le (p : Int) : pyClamp p ≤ 100 := by
  simp only [pyClamp]
  split_ifs <;> omega

theorem pyClamp_of_neg {p : Int} (h : p < 0) : pyClamp p = 0 := by
  simp only [pyClamp]
  split_ifs <;> omega

theorem pyClamp_of_gt {p : Int} (h : 100 < p) : pyClamp p = 100 := by
  simp only [pyClamp]
  split_ifs <;> omega

theorem pyClamp_of_range {p : Int} (h0 : 0 ≤ p) (h1 : p ≤ 100) : pyClamp p = p := by
  simp only [pyClamp]
  split_ifs <;> omega

theorem progress_update_of_invalid {args : Args} (st : RepoState) (aid uid : String)
    (h : validProgress args = none) :
    progress_update st aid uid args = register_student_event st aid uid ⟨true, none⟩ := by
  unfold progress_update
  unfold validProgress at h
  cases hg : alGet args "progresso" with
  | none => rfl
  | some raw =>
    rw [hg] at h
    simp only [Option.some_bind] at h
    dsimp only
    by_cases hr : raw = ""
    · rw [if_pos hr]
    · rw [if_neg hr] at h
      rw [if_neg hr, h]

theorem progress_update_of_valid {args : Args} {p : Int} (st : RepoState)
    (aid uid : String) (h : validProgress args = some p) :
    progress_update st aid uid args =
      register_student_event st aid uid ⟨true, some (pyClamp p)⟩ := by
  unfold progress_update
  unfold validProgress at h
  cases hg : alGet args "progresso" with
  | none => rw [hg] at h; cases h
  | some raw =>
    rw [hg] at h
    simp only [Option.some_bind] at h
    dsimp only
    by_cases hr : raw = ""
    · rw [if_pos hr] at h; cases h
    · rw [if_neg hr] at h
      rw [if_neg hr, h]

theorem applyStrategy_eq_rse (s : StrategyName) (st : RepoState) (aid uid : String)
    (args : Args) :
    ∃ ev : EventData, applyStrategy s st aid uid args =
        register_student_event st aid uid ev ∧
      (ev.progresso = none ∨ ∃ p, ev.progresso = some (pyClamp p)) := by
  cases s with
  | simple => exact ⟨⟨true, none⟩, rfl, Or.inl rfl⟩
  | progress =>
    cases hv : validProgress args with
    | none =>
      exact ⟨⟨true, none⟩, progress_update_of_invalid st aid uid hv, Or.inl rfl⟩
    | some p =>
      exact ⟨⟨true, some (pyClamp p)⟩, progress_update_of_valid st aid uid hv,
        Or.inr ⟨p, rfl⟩⟩

theorem applyStrategy_isSome (s : StrategyName) (st : RepoState) {aid : String}
    (uid : String) (args : Args) (h : aid ≠ "") :
    (applyStrategy s st aid uid args).isSome = true := by
  obtain ⟨ev, hev, -⟩ := applyStrategy_eq_rse s st aid uid args
  rw [hev]
  exact rse_isSome st uid ev h

theorem rsa_eq_some {st : RepoState} {aid uid mode : String} {args : Args}
    {msg : String} {st' : RepoState}
    (h : record_student_access st aid uid mode args = some (msg, st')) :
    applyStrategy (select_strategy mode args) st aid uid args = some st' ∧
      msg = "Aluno " ++ uid ++ " iniciou a atividade " ++ aid ++
        " (mode=" ++ messageModeNorm mode args ++ ")." := by
  unfold record_student_access at h
  cases hs : applyStrategy (select_strategy mode args) st aid uid args with
  | none => rw [hs] at h; cases h
  | some st2 =>
    rw [hs] at h
    simp only [Option.map_some', Option.some.injEq, Prod.mk.injEq] at h
    obtain ⟨hmsg, hst⟩ := h
    refine ⟨?_, hmsg.symm⟩
    simp only [hs, hst]

theorem rsa_isSome (st : RepoState) {aid : String} (uid mode : String) (args : Args)
    (h : aid ≠ "") : (record_student_access st aid uid mode args).isSome = true := by
  unfold record_student_access
  cases hs : applyStrategy (select_strategy mode args) st aid uid args with
  | none =>
    have := applyStrategy_isSome (select_strategy mode args) st uid args h
    rw [hs] at this
    cases this
  | some st2 => simp

/-! ### Invariant preservation -/

theorem quantNodup_register_activity {st : RepoState} (aid : String)
    (h : QuantNodup st) : QuantNodup (register_activity st aid) := by
  unfold register_activity
  by_cases h0 : aid = ""
  · simpa [h0]
  · simp only [h0, if_false]
    cases hg : alGet st aid with
    | some s => exact h
    | none =>
      intro p hp q hq
      rcases List.mem_append.1 hp with hp1 | hp1
      · exact h p hp1 q hq
      · simp only [List.mem_singleton] at hp1
        subst hp1
        simp at hq

theorem nodup_updatedStudent {students : List (String × StudentAnalytics)}
    {sid : String} (ev : EventData)
    (h : ∀ q ∈ students, ((q.2.quantAnalytics).map Metric.name).Nodup) :
    (((updatedStudent students sid ev).quantAnalytics).map Metric.name).Nodup := by
  have hbase :
      ((((alGet students sid).getD (freshStudent sid)).quantAnalytics).map
        Metric.name).Nodup := by
    cases hs : alGet students sid with
    | none => simp [freshStudent]
    | some sa => exact h _ (alGet_mem hs)
  cases hp : ev.progresso with
  | none =>
    simp only [updatedStudent, hp]
    exact nodup_upsert _ _ hbase
  | some p =>
    simp only [updatedStudent, hp]
    exact nodup_upsert _ _ (nodup_upsert _ _ hbase)

theorem quantNodup_rse {st : RepoState} {aid sid : String} {ev : EventData}
    {st' : RepoState} (h : QuantNodup st)
    (he : register_student_event st aid sid ev = some st') : QuantNodup st' := by
  obtain ⟨students, hg, hst⟩ := rse_eq_some he
  subst hst
  have h1 : QuantNodup (register_activity st aid) := quantNodup_register_activity aid h
  have hstu : (aid, students) ∈ register_activity st aid := alGet_mem hg
  intro p hp q hq
  rcases mem_alSet hp with hp1 | hp1
  · subst hp1
    rcases mem_alSet hq with hq1 | hq1
    · subst hq1
      exact nodup_updatedStudent ev fun q' hq' => h1 _ hstu q' hq'
    · exact h1 _ hstu q hq1
  · exact h1 p hp1 q hq

theorem quantNodup_applyOp {st : RepoState} (op : CoreOp) (h : QuantNodup st) :
    QuantNodup (applyOp st op) := by
  cases op with
  | regActivity aid => exact quantNodup_register_activity aid h
  | recEvent aid sid ev =>
    cases he : register_student_event st aid sid ev with
    | none => simpa [applyOp, he]
    | some st' =>
      simp only [applyOp, he, Option.getD_some]
      exact quantNodup_rse h he
  | recAccess aid sid mode args =>
    simp only [applyOp, record_student_access]
    obtain ⟨ev, hev, -⟩ := applyStrategy_eq_rse (select_strategy mode args) st aid sid args
    rw [hev]
    cases he : register_student_event st aid sid ev with
    | none => simpa [he]
    | some st' =>
      simp only [he, Option.map_some', Option.getD_some]
      exact quantNodup_rse h he
  | prepDeploy aid => exact quantNodup_register_activity aid h
  | getAnalytics aid => exact h

theorem quantNodup_runOpsFrom {st : RepoState} (ops : List CoreOp)
    (h : QuantNodup st) : QuantNodup (runOpsFrom st ops) := by
  induction ops generalizing st with
  | nil => simpa [runOpsFrom]
  | cons op ops ih =>
    simp only [runOpsFrom, List.foldl_cons]
    have := ih (quantNodup_applyOp op h)
    simpa [runOpsFrom] using this

theorem quantNodup_empty : QuantNodup ([] : RepoState) := by
  intro p hp
  simp at hp

theorem quantNodup_runOps (ops : List CoreOp) : QuantNodup (runOps ops) :=
  quantNodup_runOpsFrom ops quantNodup_empty

theorem progRange_register_activity {st : RepoState} (aid : String)
    (h : ProgRange st) : ProgRange (register_activity st aid) := by
  unfold register_activity
  by_cases h0 : aid = ""
  · simpa [h0]
  · simp only [h0, if_false]
    cases hg : alGet st aid with
    | some s => exact h
    | none =>
      intro p hp q hq
      rcases List.mem_append.1 hp with hp1 | hp1
      · exact h p hp1 q hq
      · simp only [List.mem_singleton] at hp1
        subst hp1
        simp at hq

theorem progRange_updatedStudent {students : List (String × StudentAnalytics)}
    {sid : String} {ev : EventData}
    (hev : ev.progresso = none ∨ ∃ p, ev.progresso = some (pyClamp p))
    (h : ∀ q ∈ students, ∀ m ∈ q.2.quantAnalytics, m.name = progressName →
      ∃ n : Int, m.value = MValue.int n ∧ 0 ≤ n ∧ n ≤ 100) :
    ∀ m ∈ (updatedStudent students sid ev).quantAnalytics, m.name = progressName →
      ∃ n : Int, m.value = MValue.int n ∧ 0 ≤ n ∧ n ≤ 100 := by
  have hbase : ∀ m ∈ ((alGet students sid).getD (freshStudent sid)).quantAnalytics,
      m.name = progressName →
      ∃ n : Int, m.value = MValue.int n ∧ 0 ≤ n ∧ n ≤ 100 := by
    cases hs : alGet students sid with
    | none => simp [freshStudent]
    | some sa => exact h _ (alGet_mem hs)
  have hacc : ∀ m ∈ upsertMetric
      ((alGet students sid).getD (freshStudent sid)).quantAnalytics accessedName
      (.bool true), m.name = progressName →
      ∃ n : Int, m.value = MValue.int n ∧ 0 ≤ n ∧ n ≤ 100 := by
    intro m hm hname
    rcases mem_upsert hm with hm1 | hm1
    · subst hm1
      exact absurd hname accessedName_ne_progressName
    · exact hbase m hm1 hname
  cases hp : ev.progresso with
  | none =>
    simp only [updatedStudent, hp]
    exact hacc
  | some pv =>
    rcases hev with hev | ⟨p, hev⟩
    · rw [hp] at hev; cases hev
    · rw [hp] at hev
      simp only [Option.some.injEq] at hev
      subst hev
      simp only [updatedStudent, hp]
      intro m hm hname
      rcases mem_upsert hm with hm1 | hm1
      · subst hm1
        exact ⟨pyClamp p, rfl, pyClamp_nonneg p, pyClamp_le p⟩
      · exact hacc m hm1 hname

theorem progRange_rse {st : RepoState} {aid sid : String} {ev : EventData}
    {st' : RepoState} (h : ProgRange st)
    (hev : ev.progresso = none ∨ ∃ p, ev.progresso = some (pyClamp p))
    (he : register_student_event st aid sid ev = some st') : ProgRange st' := by
  obtain ⟨students, hg, hst⟩ := rse_eq_some he
  subst hst
  have h1 : ProgRange (register_activity st aid) := progRange_register_activity aid h
  have hstu : (aid, students) ∈ register_activity st aid := alGet_mem hg
  intro p hp q hq
  rcases mem_alSet hp with hp1 | hp1
  · subst hp1
    rcases mem_alSet hq with hq1 | hq1
    · subst hq1
      exact progRange_updatedStudent hev fun q' hq' => h1 _ hstu q' hq'
    · exact h1 _ hstu q hq1
  · exact h1 p hp1 q hq

theorem progRange_applyFacadeOp {st : RepoState} (op : FacadeOp) (h : ProgRange st) :
    ProgRange (applyFacadeOp st op) := by
  cases op with
  | regActivity aid => exact progRange_register_activity aid h
  | recAccess aid sid mode args =>
    simp only [applyFacadeOp, record_student_access]
    obtain ⟨ev, hev, hrange⟩ :=
      applyStrategy_eq_rse (select_strategy mode args) st aid sid args
    rw [hev]
    cases he : register_student_event st aid sid ev with
    | none => simpa [he]
    | some st' =>
      simp only [he, Option.map_some', Option.getD_some]
      exact progRange_rse h hrange he
  | prepDeploy aid => exact progRange_register_activity aid h
  | getAnalytics aid => exact h

theorem progRange_runFacadeOps (ops : List FacadeOp) : ProgRange (runFacadeOps ops) := by
  have hgen : ∀ (l : List FacadeOp) (st : RepoState), ProgRange st →
      ProgRange (l.foldl applyFacadeOp st) := by
    intro l
    induction l with
    | nil => intro st h; simpa
    | cons op l ih =>
      intro st h
      simp only [List.foldl_cons]
      exact ih _ (progRange_applyFacadeOp op h)
  exact hgen ops [] (by intro p hp; simp at hp)

theorem keysMatch_register_activity {st : RepoState} (aid : String)
    (h : KeysMatch st) : KeysMatch (register_activity st aid) := by
  unfold register_activity
  by_cases h0 : aid = ""
  · simpa [h0]
  · simp only [h0, if_false]
    cases hg : alGet st aid with
    | some s => exact h
    | none =>
      intro p hp q hq
      rcases List.mem_append.1 hp with hp1 | hp1
      · exact h p hp1 q hq
      · simp only [List.mem_singleton] at hp1
        subst hp1
        simp at hq

theorem updatedStudent_id {students : List (String × StudentAnalytics)} {sid : String}
    (ev : EventData) (h : ∀ q ∈ students, q.2.inveniraStdID = q.1) :
    (updatedStudent students sid ev).inveniraStdID = sid := by
  have hbase : ((alGet students sid).getD (freshStudent sid)).inveniraStdID = sid := by
    cases hs : alGet students sid with
    | none => rfl
    | some sa => exact h _ (alGet_mem hs)
  cases hp : ev.progresso with
  | none => simp only [updatedStudent, hp]; exact hbase
  | some p => simp only [updatedStudent, hp]; exact hbase

theorem keysMatch_rse {st : RepoState} {aid sid : String} {ev : EventData}
    {st' : RepoState} (h : KeysMatch st)
    (he : register_student_event st aid sid ev = some st') : KeysMatch st' := by
  obtain ⟨students, hg, hst⟩ := rse_eq_some he
  subst hst
  have h1 : KeysMatch (register_activity st aid) := keysMatch_register_activity aid h
  have hstu : (aid, students) ∈ register_activity st aid := alGet_mem hg
  intro p hp q hq
  rcases mem_alSet hp with hp1 | hp1
  · subst hp1
    rcases mem_alSet hq with hq1 | hq1
    · subst hq1
      exact updatedStudent_id ev fun q' hq' => h1 _ hstu q' hq'
    · exact h1 _ hstu q hq1
  · exact h1 p hp1 q hq

theorem keysMatch_applyOp {st : RepoState} (op : CoreOp) (h : KeysMatch st) :
    KeysMatch (applyOp st op) := by
  cases op with
  | regActivity aid => exact keysMatch_register_activity aid h
  | recEvent aid sid ev =>
    cases he : register_student_event st aid sid ev with
    | none => simpa [applyOp, he]
    | some st' =>
      simp only [applyOp, he, Option.getD_some]
      exact keysMatch_rse h he
  | recAccess aid sid mode args =>
    simp only [applyOp, record_student_access]
    obtain ⟨ev, hev, -⟩ := applyStrategy_eq_rse (select_strategy mode args) st aid sid args
    rw [hev]
    cases he : register_student_event st aid sid ev with
    | none => simpa [he]
    | some st' =>
      simp only [he, Option.map_some', Option.getD_some]
      exact keysMatch_rse h he
  | prepDeploy aid => exact keysMatch_register_activity aid h
  | getAnalytics aid => exact h

theorem keysMatch_runOps (ops : List CoreOp) : KeysMatch (runOps ops) := by
  have hgen : ∀ (l : List CoreOp) (st : RepoState), KeysMatch st →
      KeysMatch (l.foldl applyOp st) := by
    intro l
    induction l with
    | nil => intro st h; simpa
    | cons op l ih =>
      intro st h
      simp only [List.foldl_cons]
      exact ih _ (keysMatch_applyOp op h)
  exact hgen ops [] (by intro p hp; simp at hp)

/-! ### Accessed-flag preservation -/

theorem accessedOf_register_activity (st : RepoState) (aid x y : String) :
    accessedOf (register_activity st aid) x y = accessedOf st x y := by
  unfold accessedOf
  rw [quantOf_register_activity]

theorem accessed_rse {st : RepoState} {aid sid : String} {ev : EventData}
    {st' : RepoState} {x y : String}
    (he : register_student_event st aid sid ev = some st')
    (h : accessedOf st x y = some (MValue.bool true)) :
    accessedOf st' x y = some (MValue.bool true) := by
  by_cases hxy : x = aid ∧ y = sid
  · obtain ⟨hx, hy⟩ := hxy
    subst hx
    subst hy
    exact accessedOf_rse_self he
  · unfold accessedOf
    rw [quantOf_rse_frame x y he hxy]
    exact h

theorem accessed_applyOp {st : RepoState} (op : CoreOp) {x y : String}
    (h : accessedOf st x y = some (MValue.bool true)) :
    accessedOf (applyOp st op) x y = some (MValue.bool true) := by
  cases op with
  | regActivity aid =>
    simp only [applyOp]
    rw [accessedOf_register_activity]
    exact h
  | recEvent aid sid ev =>
    cases he : register_student_event st aid sid ev with
    | none => simpa [applyOp, he]
    | some st' =>
      simp only [applyOp, he, Option.getD_some]
      exact accessed_rse he h
  | recAccess aid sid mode args =>
    simp only [applyOp, record_student_access]
    obtain ⟨ev, hev, -⟩ := applyStrategy_eq_rse (select_strategy mode args) st aid sid args
    rw [hev]
    cases he : register_student_event st aid sid ev with
    | none => simpa [he]
    | some st' =>
      simp only [he, Option.map_some', Option.getD_some]
      exact accessed_rse he h
  | prepDeploy aid =>
    simp only [applyOp, prepare_deploy]
    rw [accessedOf_register_activity]
    exact h
  | getAnalytics aid => exact h

theorem accessed_runOpsFrom {st : RepoState} (ops : List CoreOp) {x y : String}
    (h : accessedOf st x y = some (MValue.bool true)) :
    accessedOf (runOpsFrom st ops) x y = some (MValue.bool true) := by
  induction ops generalizing st with
  | nil => simpa [runOpsFrom]
  | cons op ops ih =>
    simp only [runOpsFrom, List.foldl_cons]
    have := ih (accessed_applyOp op h)
    simpa [runOpsFrom] using this

/-! ### Counting helpers -/

theorem countP_name_eq_zero {l : List Metric} {n : String}
    (h : n ∉ l.map Metric.name) :
    l.countP (fun qa => decide (qa.name = n)) = 0 := by
  rw [List.countP_eq_zero]
  intro a ha
  simp only [decide_eq_true_eq]
  intro hn
  exact h (List.mem_map.2 ⟨a, ha, hn⟩)

theorem countP_name_le_one {l : List Metric} (n : String)
    (h : (l.map Metric.name).Nodup) :
    l.countP (fun qa => decide (qa.name = n)) ≤ 1 := by
  induction l with
  | nil => simp
  | cons a l ih =>
    simp only [List.map_cons, List.nodup_cons] at h
    obtain ⟨hna, hnd⟩ := h
    rw [List.countP_cons]
    by_cases hn : a.name = n
    · rw [if_pos (by simpa using hn)]
      subst hn
      rw [countP_name_eq_zero hna]
    · rw [if_neg (by simpa using hn)]
      have := ih hnd
      omega

/-! ### Claims -/

/-- C1, counterexample: recording a student event with an empty activity
identifier raises (KeyError at app.py line 44) instead of being a no-op, both
on a direct store call and through the Facade's record-access path — so the
claim that every core operation completes without raising for all string
inputs, including an empty activity identifier, is false. -/
theorem c1_empty_activity_raises :
    register_student_event [] "" "S1" ⟨true, none⟩ = none ∧
      record_student_access [] "" "S1" "simple" [] = none := by
  exact ⟨by decide, by decide⟩

/-- C1 (amended): registering an activity is total and a no-op for the empty
identifier, and recording a student event — directly or via the Facade's
record-access path — completes without raising whenever the activity
identifier is non-empty; with an empty identifier the event-recording path
raises instead of being a no-op. -/
theorem c1_core_ops_total (st : RepoState) (aid sid mode : String)
    (args : Args) (ev : EventData) :
    register_activity st "" = st ∧
      (aid ≠ "" → (register_student_event st aid sid ev).isSome = true ∧
        (record_student_access st aid sid mode args).isSome = true) :=
  ⟨register_activity_empty st,
    fun h => ⟨rse_isSome st sid ev h, rsa_isSome st sid mode args h⟩⟩

/-- C1 witness: the amended totality theorem applied at a concrete non-empty
activity identifier. -/
theorem c1_core_ops_total_witness :
    (register_student_event [] "A1" "S1" ⟨true, none⟩).isSome = true ∧
      (record_student_access [] "A1" "S1" "simple" []).isSome = true :=
  (c1_core_ops_total [] "A1" "S1" "simple" [] ⟨true, none⟩).2 (by decide)

/-- C2: after any sequence of core operations from the empty store (in
particular after each event of any sequence of recorded events on one
(activity, student) pair), every record's quantitativeMetrics list has
pairwise-distinct names, hence at most one "Acedeu à atividade" entry and at
most one "Progresso (%)" entry. -/
theorem c2_metric_names_unique (ops : List CoreOp) (aid sid : String)
    (l : List Metric) (h : quantOf (runOps ops) aid sid = some l) :
    (l.map Metric.name).Nodup ∧
      l.countP (fun qa => decide (qa.name = accessedName)) ≤ 1 ∧
      l.countP (fun qa => decide (qa.name = progressName)) ≤ 1 := by
  have hinv := quantNodup_runOps ops
  unfold quantOf at h
  cases hg : alGet (runOps ops) aid with
  | none => rw [hg] at h; cases h
  | some students =>
    rw [hg] at h
    simp only [Option.some_bind] at h
    cases hs : alGet students sid with
    | none => rw [hs] at h; cases h
    | some sa =>
      rw [hs] at h
      simp only [Option.map_some', Option.some.injEq] at h
      subst h
      have hN := hinv _ (alGet_mem hg) _ (alGet_mem hs)
      exact ⟨hN, countP_name_le_one accessedName hN, countP_name_le_one progressName hN⟩

/-- C2 witness: the uniqueness theorem applied to the record produced by one
concrete recorded event carrying a progress value. -/
theorem c2_metric_names_unique_witness :
    (([⟨accessedName, MValue.bool true⟩, ⟨progressName, MValue.int 50⟩] : List Metric).map
        Metric.name).Nodup ∧
      ([⟨accessedName, MValue.bool true⟩, ⟨progressName, MValue.int 50⟩] : List Metric).countP
        (fun qa => decide (qa.name = accessedName)) ≤ 1 ∧
      ([⟨accessedName, MValue.bool true⟩, ⟨progressName, MValue.int 50⟩] : List Metric).countP
        (fun qa => decide (qa.name = progressName)) ≤ 1 :=
  c2_metric_names_unique [CoreOp.recEvent "A1" "S1" ⟨true, some 50⟩] "A1" "S1"
    [⟨accessedName, MValue.bool true⟩, ⟨progressName, MValue.int 50⟩] (by decide)

/-- C3, counterexample: the store's event-recording operation applies no
clamping — a direct call supplying progress 150 stores 150, outside [0, 100],
so the claim is false for direct store calls. -/
theorem c3_direct_event_not_clamped :
    progressOf ((register_student_event [] "A1" "S1" ⟨true, some 150⟩).getD [])
        "A1" "S1" = some (MValue.int 150) ∧ ¬ ((150 : Int) ≤ 100) := by
  exact ⟨by decide, by decide⟩

/-- C3 (amended): after any sequence of facade-level operations (activity
registration, record-access through the strategies, deployment preparation,
analytics fetch), every stored progress entry is an integer in [0, 100];
clamping lives only in the progress strategy, not in the store. -/
theorem c3_progress_in_range (ops : List FacadeOp) (aid sid : String)
    (l : List Metric) (h : quantOf (runFacadeOps ops) aid sid = some l) :
    ∀ m ∈ l, m.name = progressName →
      ∃ n : Int, m.value = MValue.int n ∧ 0 ≤ n ∧ n ≤ 100 := by
  have hinv := progRange_runFacadeOps ops
  unfold quantOf at h
  cases hg : alGet (runFacadeOps ops) aid with
  | none => rw [hg] at h; cases h
  | some students =>
    rw [hg] at h
    simp only [Option.some_bind] at h
    cases hs : alGet students sid with
    | none => rw [hs] at h; cases h
    | some sa =>
      rw [hs] at h
      simp only [Option.map_some', Option.some.injEq] at h
      subst h
      exact hinv _ (alGet_mem hg) _ (alGet_mem hs)

/-- C3 witness: the amended range theorem applied to the store produced by a
facade-level event carrying out-of-range progress 150, whose stored progress
entry is the clamped 100. -/
theorem c3_progress_in_range_witness :
    ∃ n : Int, MValue.int 100 = MValue.int n ∧ 0 ≤ n ∧ n ≤ 100 :=
  c3_progress_in_range
    [FacadeOp.recAccess "A1" "S1" "progress" [("progresso", "150")]] "A1" "S1"
    [⟨accessedName, MValue.bool true⟩, ⟨progressName, MValue.int 100⟩] (by decide)
    ⟨progressName, MValue.int 100⟩ (by decide) (by decide)

/-- C4: the dispatch rule — a trimmed, lowercased mode equal to "simple"
selects the plain-access strategy (and then no progress entry is written even
when a valid progress argument is present), "progress" selects the progress
strategy, and any other mode selects the progress strategy exactly when a
non-empty progress argument is present (unrecognized mode "foo" with progress
"30" stores progress 30), defaulting to plain access otherwise. -/
theorem c4_dispatch_rule (mode : String) (args : Args) (st : RepoState)
    (aid sid : String) :
    (pyNorm mode = "simple" →
        select_strategy mode args = StrategyName.simple ∧
        ∀ (msg : String) (st' : RepoState),
          record_student_access st aid sid mode args = some (msg, st') →
          progressOf st' aid sid = progressOf st aid sid) ∧
      (pyNorm mode = "progress" → select_strategy mode args = StrategyName.progress) ∧
      (pyNorm mode ≠ "simple" → pyNorm mode ≠ "progress" →
        select_strategy mode args =
          if progressPresent args then StrategyName.progress else StrategyName.simple) ∧
      progressOf (((record_student_access [] "A1" "S1" "foo"
          [("progresso", "30")]).map (·.2)).getD []) "A1" "S1" =
        some (MValue.int 30) := by
  refine ⟨?_, ?_, ?_, by decide⟩
  · intro h
    have hsel : select_strategy mode args = StrategyName.simple := by
      simp only [select_strategy]
      rw [h, if_pos rfl]
    refine ⟨hsel, ?_⟩
    intro msg st' hr
    obtain ⟨hs, -⟩ := rsa_eq_some hr
    rw [hsel] at hs
    exact progressOf_rse_none hs
  · intro h
    simp only [select_strategy]
    rw [h, if_neg (by decide), if_pos rfl]
  · intro h1 h2
    simp only [select_strategy]
    rw [if_neg h1, if_neg h2]

/-- C4 witness: dispatch applied at concrete modes — explicit "simple" wins
over a present progress argument, explicit "progress" is honoured, and the
unrecognized mode "foo" falls back to inference from the progress argument. -/
theorem c4_dispatch_rule_witness :
    select_strategy "simple" [("progresso", "55")] = StrategyName.simple ∧
      select_strategy "progress" [] = StrategyName.progress ∧
      select_strategy "foo" [("progresso", "30")] =
        (if progressPresent [("progresso", "30")] then StrategyName.progress
          else StrategyName.simple) :=
  ⟨((c4_dispatch_rule "simple" [("progresso", "55")] [] "A1" "S1").1 (by decide)).1,
    (c4_dispatch_rule "progress" [] [] "A1" "S1").2.1 (by decide),
    (c4_dispatch_rule "foo" [("progresso", "30")] [] "A1" "S1").2.2.1 (by decide)
      (by decide)⟩

/-- C5: under the progress strategy, an absent, empty or unparseable progress
argument still records the access (accessed-flag true), writes no progress
entry (the observed progress entry is unchanged) and raises no error; a
parseable argument is stored clamped to [0, 100], with values below 0 stored
as 0 and values above 100 stored as 100. -/
theorem c5_progress_strategy (st : RepoState) (aid sid : String) (args : Args)
    (h : aid ≠ "") :
    (validProgress args = none →
        ∃ st', progress_update st aid sid args = some st' ∧
          accessedOf st' aid sid = some (MValue.bool true) ∧
          progressOf st' aid sid = progressOf st aid sid) ∧
      (∀ p : Int, validProgress args = some p →
        ∃ st', progress_update st aid sid args = some st' ∧
          accessedOf st' aid sid = some (MValue.bool true) ∧
          progressOf st' aid sid = some (MValue.int (pyClamp p)) ∧
          0 ≤ pyClamp p ∧ pyClamp p ≤ 100 ∧
          (p < 0 → pyClamp p = 0) ∧ (100 < p → pyClamp p = 100)) := by
  constructor
  · intro hv
    rw [progress_update_of_invalid st aid sid hv]
    cases he : register_student_event st aid sid ⟨true, none⟩ with
    | none =>
      have hh := rse_isSome st sid (⟨true, none⟩ : EventData) h
      rw [he] at hh
      cases hh
    | some st' =>
      exact ⟨st', rfl, accessedOf_rse_self he, progressOf_rse_none he⟩
  · intro p hv
    rw [progress_update_of_valid st aid sid hv]
    cases he : register_student_event st aid sid ⟨true, some (pyClamp p)⟩ with
    | none =>
      have hh := rse_isSome st sid (⟨true, some (pyClamp p)⟩ : EventData) h
      rw [he] at hh
      cases hh
    | some st' =>
      exact ⟨st', rfl, accessedOf_rse_self he, progressOf_rse_some he,
        pyClamp_nonneg p, pyClamp_le p, fun hp => pyClamp_of_neg hp,
        fun hp => pyClamp_of_gt hp⟩

/-- C5 witness: the progress-strategy theorem applied at the unparseable
argument "abc" (plain-access fallback) and at the out-of-range argument "150"
(stored clamped). -/
theorem c5_progress_strategy_witness :
    (∃ st', progress_update [] "A1" "S1" [("progresso", "abc")] = some st' ∧
        accessedOf st' "A1" "S1" = some (MValue.bool true) ∧
        progressOf st' "A1" "S1" = progressOf [] "A1" "S1") ∧
      (∃ st', progress_update [] "A1" "S1" [("progresso", "150")] = some st' ∧
        accessedOf st' "A1" "S1" = some (MValue.bool true) ∧
        progressOf st' "A1" "S1" = some (MValue.int (pyClamp 150)) ∧
        0 ≤ pyClamp 150 ∧ pyClamp 150 ≤ 100 ∧
        ((150 : Int) < 0 → pyClamp 150 = 0) ∧ ((100 : Int) < 150 → pyClamp 150 = 100)) :=
  ⟨(c5_progress_strategy [] "A1" "S1" [("progresso", "abc")] (by decide)).1 (by decide),
    (c5_progress_strategy [] "A1" "S1" [("progresso", "150")] (by decide)).2 150
      (by decide)⟩

/-- C6: a stored progress entry survives, with the same value, any later event
on the same (activity, student) pair that does not itself supply a valid
progress value — both a direct store event without a progress key and a
facade record-access whose arguments carry no valid progress leave the
observed progress entry unchanged. -/
theorem c6_progress_persistence (st : RepoState) (aid sid : String) :
    (∀ (b : Bool) (st' : RepoState),
        register_student_event st aid sid ⟨b, none⟩ = some st' →
        progressOf st' aid sid = progressOf st aid sid) ∧
      (∀ (mode : String) (args : Args) (msg : String) (st' : RepoState),
        validProgress args = none →
        record_student_access st aid sid mode args = some (msg, st') →
        progressOf st' aid sid = progressOf st aid sid) := by
  constructor
  · intro b st' he
    exact progressOf_rse_none he
  · intro mode args msg st' hv hr
    obtain ⟨hs, -⟩ := rsa_eq_some hr
    cases hsel : select_strategy mode args with
    | simple =>
      rw [hsel] at hs
      exact progressOf_rse_none hs
    | progress =>
      rw [hsel] at hs
      have hs' : progress_update st aid sid args = some st' := hs
      rw [progress_update_of_invalid st aid sid hv] at hs'
      exact progressOf_rse_none hs'

/-- C6 witness: a stored progress of 40 survives a later plain event and a
later facade event whose progress argument "abc" is invalid. -/
theorem c6_progress_persistence_witness :
    progressOf [("A1", [("S1",
        ⟨"S1", [⟨progressName, MValue.int 40⟩, ⟨accessedName, MValue.bool true⟩],
          []⟩)])] "A1" "S1" =
      progressOf [("A1", [("S1",
        ⟨"S1", [⟨accessedName, MValue.bool true⟩, ⟨progressName, MValue.int 40⟩],
          []⟩)])] "A1" "S1" :=
  (c6_progress_persistence [("A1", [("S1",
      ⟨"S1", [⟨accessedName, MValue.bool true⟩, ⟨progressName, MValue.int 40⟩],
        []⟩)])] "A1" "S1").1 true
    [("A1", [("S1",
      ⟨"S1", [⟨progressName, MValue.int 40⟩, ⟨accessedName, MValue.bool true⟩],
        []⟩)])] (by decide)

/-- C7: every successfully recorded event upserts the accessed-flag with value
true unconditionally, and once the accessed-flag of a (activity, student)
pair is true it stays true after any further sequence of core operations,
whatever their modes and arguments. -/
theorem c7_accessed_monotonic (st : RepoState) (aid sid : String) :
    (∀ (ev : EventData) (st' : RepoState),
        register_student_event st aid sid ev = some st' →
        accessedOf st' aid sid = some (MValue.bool true)) ∧
      (∀ ops : List CoreOp, accessedOf st aid sid = some (MValue.bool true) →
        accessedOf (runOpsFrom st ops) aid sid = some (MValue.bool true)) :=
  ⟨fun _ _ he => accessedOf_rse_self he, fun ops h => accessed_runOpsFrom ops h⟩

/-- C7 witness: a first event sets the accessed-flag, and it is still true
after a further facade operation with an unrecognized mode. -/
theorem c7_accessed_monotonic_witness :
    accessedOf [("A1", [("S1", ⟨"S1", [⟨accessedName, MValue.bool true⟩], []⟩)])]
        "A1" "S1" = some (MValue.bool true) ∧
      accessedOf (runOpsFrom
          [("A1", [("S1", ⟨"S1", [⟨accessedName, MValue.bool true⟩], []⟩)])]
          [CoreOp.recAccess "A1" "S1" "foo" []]) "A1" "S1" =
        some (MValue.bool true) :=
  ⟨(c7_accessed_monotonic [] "A1" "S1").1 ⟨true, none⟩
      [("A1", [("S1", ⟨"S1", [⟨accessedName, MValue.bool true⟩], []⟩)])] (by decide),
    (c7_accessed_monotonic
        [("A1", [("S1", ⟨"S1", [⟨accessedName, MValue.bool true⟩], []⟩)])]
        "A1" "S1").2 [CoreOp.recAccess "A1" "S1" "foo" []] (by decide)⟩

/-- C8: fetching analytics is pure (the store state is unchanged, so the
activity is never created as a side effect), returns the empty sequence for an
unknown activity, and returns the student records in the order students were
first inserted: a recorded event appends a new student at the end and keeps
the position of an existing one, and the returned records follow the
activity's student-key insertion order. -/
theorem c8_get_analytics (st : RepoState) (aid : String) :
    applyOp st (CoreOp.getAnalytics aid) = st ∧
      (alGet st aid = none → get_activity_analytics st aid = []) ∧
      (∀ (sid : String) (ev : EventData) (st' : RepoState),
        register_student_event st aid sid ev = some st' →
        studentIds st' aid =
          if sid ∈ studentIds st aid then studentIds st aid
          else studentIds st aid ++ [sid]) ∧
      (∀ ops : List CoreOp,
        (get_activity_analytics (runOps ops) aid).map StudentAnalytics.inveniraStdID =
          studentIds (runOps ops) aid) := by
  refine ⟨rfl, ?_, ?_, ?_⟩
  · intro h
    unfold get_activity_analytics
    rw [h]
  · intro sid ev st' he
    exact studentIds_rse he
  · intro ops
    have hk := keysMatch_runOps ops
    unfold get_activity_analytics studentIds
    cases hg : alGet (runOps ops) aid with
    | none => simp
    | some students =>
      simp only [Option.getD_some, List.map_map]
      apply List.map_congr_left
      intro q hq
      exact hk _ (alGet_mem hg) q hq

/-- C8 witness: the analytics-fetch theorem applied at the empty store (unknown
activity), at a concrete first event (student appended at the end), and at a
one-event run (records follow insertion order). -/
theorem c8_get_analytics_witness :
    get_activity_analytics [] "A1" = [] ∧
      studentIds [("A1", [("S1", ⟨"S1", [⟨accessedName, MValue.bool true⟩], []⟩)])]
          "A1" =
        (if "S1" ∈ studentIds [] "A1" then studentIds [] "A1"
          else studentIds [] "A1" ++ ["S1"]) ∧
      (get_activity_analytics (runOps [CoreOp.recEvent "A1" "S1" ⟨true, none⟩])
          "A1").map StudentAnalytics.inveniraStdID =
        studentIds (runOps [CoreOp.recEvent "A1" "S1" ⟨true, none⟩]) "A1" :=
  ⟨(c8_get_analytics [] "A1").2.1 (by decide),
    (c8_get_analytics [] "A1").2.2.1 "S1" ⟨true, none⟩
      [("A1", [("S1", ⟨"S1", [⟨accessedName, MValue.bool true⟩], []⟩)])] (by decide),
    (c8_get_analytics [] "A1").2.2.2 [CoreOp.recEvent "A1" "S1" ⟨true, none⟩]⟩

/-- C9: preparing a deployment registers the activity and returns the
deterministic URL formed from the fixed base plus the activity identifier as a
query parameter, and the whole operation is idempotent: a second deployment
(or a second registration) yields exactly the same store state and the same
URL, and a freshly registered activity has no student records. -/
theorem c9_prepare_deploy_idempotent (st : RepoState) (aid : String) :
    prepare_deploy st aid =
        ("https://cyberaware-ap.onrender.com/play?activityID=" ++ aid,
          register_activity st aid) ∧
      prepare_deploy (prepare_deploy st aid).2 aid = prepare_deploy st aid ∧
      register_activity (register_activity st aid) aid = register_activity st aid ∧
      get_activity_analytics (register_activity (register_activity [] "A1") "A1")
          "A1" = [] ∧
      get_activity_analytics (register_activity [] "A1") "A1" = [] := by
  refine ⟨rfl, ?_, register_activity_idem st aid, by decide, by decide⟩
  unfold prepare_deploy
  rw [register_activity_idem st aid]

/-- C10: the behaviour name embedded in the Facade's confirmation message (the
duplicated inference at app.py lines 233-235) always equals the `_strategies`
lookup key of the strategy chosen by `_select_strategy` for the same inputs,
and every successful record-access returns exactly the message built from that
key. -/
theorem c10_message_matches_dispatch (mode : String) (args : Args) :
    messageModeNorm mode args = strategyKey (select_strategy mode args) ∧
      ∀ (st : RepoState) (aid uid msg : String) (st' : RepoState),
        record_student_access st aid uid mode args = some (msg, st') →
        msg = "Aluno " ++ uid ++ " iniciou a atividade " ++ aid ++
          " (mode=" ++ strategyKey (select_strategy mode args) ++ ")." := by
  have hkey : messageModeNorm mode args = strategyKey (select_strategy mode args) := by
    simp only [messageModeNorm, select_strategy]
    by_cases h1 : pyNorm mode = "simple"
    · simp [h1, strategyKey]
    · by_cases h2 : pyNorm mode = "progress"
      · simp [h1, h2, strategyKey]
      · by_cases h3 : progressPresent args
        · simp [h1, h2, h3, strategyKey]
        · simp [h1, h2, h3, strategyKey]
  refine ⟨hkey, ?_⟩
  intro st aid uid msg st' hr
  obtain ⟨-, hmsg⟩ := rsa_eq_some hr
  rw [hmsg, hkey]

/-- C10 witness: for the unrecognized mode "foo" with progress "30", the
message names "progress", the key of the strategy the dispatch selects. -/
theorem c10_message_matches_dispatch_witness :
    "Aluno S1 iniciou a atividade A1 (mode=progress)." =
      "Aluno " ++ "S1" ++ " iniciou a atividade " ++ "A1" ++
        " (mode=" ++ strategyKey (select_strategy "foo" [("progresso", "30")]) ++ ")." :=
  (c10_message_matches_dispatch "foo" [("progresso", "30")]).2 [] "A1" "S1"
    "Aluno S1 iniciou a atividade A1 (mode=progress)."
    [("A1", [("S1",
      ⟨"S1", [⟨accessedName, MValue.bool true⟩, ⟨progressName, MValue.int 30⟩],
        []⟩)])] (by decide)
